import Mathlib

/-!
Verification of the FEBioVFM core against its specification.

The definitions below are a shallow embedding of the C++ sources of the
FEBioVFM plugin.  `double` values are modelled as exact rationals (`ℚ`), so
"bitwise equality" of the C++ spec becomes equality in `ℚ`.  Fallible C++
routines (which return `false` and write a message into a caller-provided
string) are modelled as `Except String`-valued functions.  Ragged
time × element × gauss-point tensor stores become nested lists.
-/

/-- 3-vector of rationals, modelling FEBio's `vec3d`. -/
structure Vec3 where
  x : ℚ
  y : ℚ
  z : ℚ
deriving DecidableEq, Repr

namespace Vec3

def zero : Vec3 := ⟨0, 0, 0⟩

instance : Inhabited Vec3 := ⟨zero⟩

/-- Dot product, modelling `vec3d::operator*`. -/
def dot (a b : Vec3) : ℚ := a.x * b.x + a.y * b.y + a.z * b.z

end Vec3

/-- Full 3×3 matrix of rationals, modelling FEBio's `mat3d`.
Field `aij` is row `i`, column `j`. -/
structure Mat3 where
  a00 : ℚ
  a01 : ℚ
  a02 : ℚ
  a10 : ℚ
  a11 : ℚ
  a12 : ℚ
  a20 : ℚ
  a21 : ℚ
  a22 : ℚ
deriving DecidableEq, Repr

namespace Mat3

/-- The zero matrix (`mat3d::zero`). -/
def zero : Mat3 := ⟨0, 0, 0, 0, 0, 0, 0, 0, 0⟩

/-- The identity matrix (`mat3d::unit`). -/
def id : Mat3 := ⟨1, 0, 0, 0, 1, 0, 0, 0, 1⟩

instance : Inhabited Mat3 := ⟨zero⟩

def add (A B : Mat3) : Mat3 :=
  ⟨A.a00 + B.a00, A.a01 + B.a01, A.a02 + B.a02,
   A.a10 + B.a10, A.a11 + B.a11, A.a12 + B.a12,
   A.a20 + B.a20, A.a21 + B.a21, A.a22 + B.a22⟩

/-- Matrix product (`mat3d::operator*`). -/
def mul (A B : Mat3) : Mat3 :=
  ⟨A.a00 * B.a00 + A.a01 * B.a10 + A.a02 * B.a20,
   A.a00 * B.a01 + A.a01 * B.a11 + A.a02 * B.a21,
   A.a00 * B.a02 + A.a01 * B.a12 + A.a02 * B.a22,
   A.a10 * B.a00 + A.a11 * B.a10 + A.a12 * B.a20,
   A.a10 * B.a01 + A.a11 * B.a11 + A.a12 * B.a21,
   A.a10 * B.a02 + A.a11 * B.a12 + A.a12 * B.a22,
   A.a20 * B.a00 + A.a21 * B.a10 + A.a22 * B.a20,
   A.a20 * B.a01 + A.a21 * B.a11 + A.a22 * B.a21,
   A.a20 * B.a02 + A.a21 * B.a12 + A.a22 * B.a22⟩

/-- Scalar multiple (`mat3d::operator*=` with a scalar). -/
def smul (A : Mat3) (s : ℚ) : Mat3 :=
  ⟨A.a00 * s, A.a01 * s, A.a02 * s,
   A.a10 * s, A.a11 * s, A.a12 * s,
   A.a20 * s, A.a21 * s, A.a22 * s⟩

/-- Determinant (`mat3d::det`). -/
def det (A : Mat3) : ℚ :=
  A.a00 * (A.a11 * A.a22 - A.a12 * A.a21)
  - A.a01 * (A.a10 * A.a22 - A.a12 * A.a20)
  + A.a02 * (A.a10 * A.a21 - A.a11 * A.a20)

/-- Transpose (`mat3d::transpose`). -/
def transpose (A : Mat3) : Mat3 :=
  ⟨A.a00, A.a10, A.a20, A.a01, A.a11, A.a21, A.a02, A.a12, A.a22⟩

/-- Inverse via the adjugate formula (`mat3d::inverse`). -/
def inv (A : Mat3) : Mat3 :=
  let d := A.det
  ⟨(A.a11 * A.a22 - A.a12 * A.a21) / d,
   -(A.a01 * A.a22 - A.a02 * A.a21) / d,
   (A.a01 * A.a12 - A.a02 * A.a11) / d,
   -(A.a10 * A.a22 - A.a12 * A.a20) / d,
   (A.a00 * A.a22 - A.a02 * A.a20) / d,
   -(A.a00 * A.a12 - A.a02 * A.a10) / d,
   (A.a10 * A.a21 - A.a11 * A.a20) / d,
   -(A.a00 * A.a21 - A.a01 * A.a20) / d,
   (A.a00 * A.a11 - A.a01 * A.a10) / d⟩

/-- Frobenius-style double contraction on full tensors
(`mat3d::dotdot` / `DoubleContraction` in `FEData.cpp`). -/
def dotdot (A B : Mat3) : ℚ :=
  A.a00 * B.a00 + A.a01 * B.a01 + A.a02 * B.a02
  + A.a10 * B.a10 + A.a11 * B.a11 + A.a12 * B.a12
  + A.a20 * B.a20 + A.a21 * B.a21 + A.a22 * B.a22

/-- Outer product `u ⊗ G` of two vectors (row `i` is `u_i * G`). -/
def outer (u G : Vec3) : Mat3 :=
  ⟨u.x * G.x, u.x * G.y, u.x * G.z,
   u.y * G.x, u.y * G.y, u.y * G.z,
   u.z * G.x, u.z * G.y, u.z * G.z⟩

end Mat3

/-- Symmetric 3×3 matrix in FEBio's `mat3ds` component layout. -/
structure Mat3s where
  xx : ℚ
  yy : ℚ
  zz : ℚ
  xy : ℚ
  yz : ℚ
  xz : ℚ
deriving DecidableEq, Repr

namespace Mat3s

def zero : Mat3s := ⟨0, 0, 0, 0, 0, 0⟩

instance : Inhabited Mat3s := ⟨zero⟩

/-- Expansion of a symmetric matrix to a full `mat3d`, mirroring the
component order used by `StressEval::cauchy` when calling `setSigma`. -/
def toMat3 (s : Mat3s) : Mat3 :=
  ⟨s.xx, s.xy, s.xz, s.xy, s.yy, s.yz, s.xz, s.yz, s.zz⟩

/-- `s - mat3dd p`: subtract `p` from the diagonal. -/
def subDiag (s : Mat3s) (p : ℚ) : Mat3s :=
  ⟨s.xx - p, s.yy - p, s.zz - p, s.xy, s.yz, s.xz⟩

end Mat3s

/-!  Generic helpers: an `Except`-valued map over a list (the shape of every
fallible loop in the sources, which abort on the first error and discard all
partial output by returning an empty vector), and a left-to-right running sum
mirroring the accumulation loops. -/

def mapExcept (f : α → Except String β) : List α → Except String (List β)
  | [] => .ok []
  | a :: as =>
    match f a with
    | .error e => .error e
    | .ok b =>
      match mapExcept f as with
      | .error e => .error e
      | .ok bs => .ok (b :: bs)

/-- Sum `f 0 + f 1 + ⋯ + f (n-1)` in loop order. -/
def sumR (f : ℕ → ℚ) : ℕ → ℚ
  | 0 => 0
  | n + 1 => sumR f n + f n

/-!  Kinematics (`services/kinematics.cpp`): reconstruction of the deformation
gradient field from nodal displacements. -/

/-- Dense nodal displacement field (`NodalField<vec3d>`). -/
abbrev NodalField := List Vec3

def NodalField.getNode (u : NodalField) (i : ℕ) : Vec3 := u.getD i Vec3.zero

/-- Quadrature facts of the mesh (`MeshQuad`): per-element gauss-point counts,
their prefix sums, and `det J₀ · w` integration weights. -/
structure MeshQuad where
  gpPerElem : List ℕ
  offset : List ℕ
  jw : List ℚ
deriving DecidableEq, Repr

/-- The shape-data collaborator (`IShapeProvider`): element node lists and
reference shape-function gradients at each gauss point. -/
structure ShapeProvider where
  elemNodes : ℕ → List ℕ
  gradN : ℕ → ℕ → List Vec3

/-- `F_at` from `services/kinematics.cpp`: F = I + Σₐ u(en[a]) ⊗ dN[a]. -/
def F_at (e g : ℕ) (sp : ShapeProvider) (ut : NodalField) : Mat3 :=
  let en := sp.elemNodes e
  let dN := sp.gradN e g
  (List.range en.length).foldl
    (fun F a => F.add (Mat3.outer (ut.getNode (en.getD a 0)) (dN.getD a Vec3.zero)))
    Mat3.id

/-- The plane-deformation post-process in `Kinematics::compute_measured`:
clear out-of-plane shears and set F₂₂ = 1/(F₀₀·F₁₁). -/
def planeProcess (F : Mat3) : Mat3 :=
  { F with a02 := 0, a12 := 0, a20 := 0, a21 := 0, a22 := 1 / (F.a00 * F.a11) }

/-- One time frame of a ragged element × gauss-point tensor field. -/
abbrev DefFrame := List (List Mat3)

/-- Time series of tensor frames (`Deformations` / one component of `Stresses`). -/
abbrev Defs := List DefFrame

/-- Per-virtual-field time series of tensor frames (`VirtualDeformations`). -/
abbrev VDefs := List Defs

/-- The determinant guard of `set_F_checked` / `set_Fv_checked`. -/
def defgradChecked (checkDet : Bool) (F : Mat3) : Except String Mat3 :=
  if checkDet ∧ F.det ≤ 0 then .error "non-positive det(F)" else .ok F

/-- `Kinematics::compute_measured`: loop t over measured frames, e over
elements, g over gauss points; build F, optionally plane-process it, and
store it through the determinant guard. -/
def Kinematics.compute_measured (q : MeshQuad) (sp : ShapeProvider) (U : List NodalField)
    (planeDeformation checkDet : Bool) : Except String Defs :=
  mapExcept (fun ut =>
    mapExcept (fun e =>
      mapExcept (fun g =>
        let F := F_at e g sp ut
        let F2 := if planeDeformation then planeProcess F else F
        defgradChecked checkDet F2)
        (List.range (q.gpPerElem.getD e 0)))
      (List.range q.gpPerElem.length)) U

/-- `Kinematics::compute_virtuals`: same reconstruction per virtual field and
frame, never plane-processed. -/
def Kinematics.compute_virtuals (q : MeshQuad) (sp : ShapeProvider)
    (UV : List (List NodalField)) (checkDet : Bool) : Except String VDefs :=
  mapExcept (fun ts =>
    mapExcept (fun ut =>
      mapExcept (fun e =>
        mapExcept (fun g => defgradChecked checkDet (F_at e g sp ut))
          (List.range (q.gpPerElem.getD e 0)))
        (List.range q.gpPerElem.length)) ts) UV

/-!  Constitutive driver (`FE/material_provider_febio.cpp` and
`services/stress_eval.cpp`). -/

/-- The material as seen at the collaborator boundary: either an uncoupled
material exposing `DevStress`, or a general solid material exposing `Stress`.
Both are functions of the deformation gradient injected into the cloned
material point (whose scratch fields are zeroed), closing over the currently
applied parameter values. -/
inductive FESolidMaterialModel where
  | uncoupled (devStress : Mat3 → Mat3s)
  | standard (stress : Mat3 → Mat3s)

/-- `FEBioMaterialProvider`: `material` is the result of the
`FESolidMaterial` cast on the domain's material; `elasticPointOk e g`
abstracts the three point checks of `evalCauchy` (non-null material point,
successful clone, successful `FEElasticMaterialPoint` extraction). -/
structure FEBioMaterialProvider where
  material : Option FESolidMaterialModel
  elasticPointOk : ℕ → ℕ → Bool

/-- `FEBioMaterialProvider::evalCauchy`: clone the point, inject `F`, and read
either `DevStress` (uncoupled, with the σ_zz = 0 pressure recovery
`dev − dev.zz · I`) or the full `Stress`. -/
def FEBioMaterialProvider.evalCauchy (prov : FEBioMaterialProvider) (e g : ℕ) (F : Mat3) :
    Except String Mat3s :=
  match prov.material with
  | none => .error "domain has no FESolidMaterial"
  | some m =>
    if prov.elasticPointOk e g then
      match m with
      | .uncoupled devStress =>
        let dev := devStress F
        .ok (dev.subDiag dev.zz)
      | .standard stress => .ok (stress F)
    else .error "no FEElasticMaterialPoint"

/-- Read entry (t,e,g) of a tensor store (`crefF` / `crefSigma` / `crefP`). -/
def crefEntry (S : Defs) (t e g : ℕ) : Mat3 := ((S.getD t []).getD e []).getD g Mat3.zero

/-- `StressEval::cauchy`: for every (t,e,g) of the deformation store, ask the
material provider for the Cauchy stress at `F(t,e,g)` and store it expanded
to a full matrix. -/
def StressEval.cauchy (F : Defs) (mat : ℕ → ℕ → Mat3 → Except String Mat3s) :
    Except String Defs :=
  mapExcept (fun t =>
    mapExcept (fun e =>
      mapExcept (fun g =>
        match mat e g (crefEntry F t e g) with
        | .error e2 => .error e2
        | .ok s => .ok s.toMat3)
        (List.range ((F.getD t []).getD e []).length))
      (List.range (F.getD t []).length))
    (List.range F.length)

/-- `StressEval::first_piola`: P = (σ · F⁻ᵀ) · J with J = det F, failing with
"non-positive detF" as soon as J ≤ 0. -/
def StressEval.first_piola (F S : Defs) : Except String Defs :=
  mapExcept (fun t =>
    mapExcept (fun e =>
      mapExcept (fun g =>
        let Fin := crefEntry F t e g
        let J := Fin.det
        if J ≤ 0 then .error "non-positive detF"
        else
          let FinvT := Fin.inv.transpose
          let Sm := crefEntry S t e g
          .ok ((Sm.mul FinvT).smul J))
        (List.range ((F.getD t []).getD e []).length))
      (List.range (F.getD t []).length))
    (List.range F.length)

/-!  Parameter applier (`FE/params_febio.hpp`). -/

structure VFMParamSpec where
  name : String
  init : ℚ
  lo : ℚ
  hi : ℚ
  scale : ℚ
deriving DecidableEq, Repr

structure VFMParam where
  spec : VFMParamSpec
  value : ℚ
deriving DecidableEq, Repr

instance : Inhabited VFMParam := ⟨⟨⟨"", 0, 0, 0, 1⟩, 0⟩⟩

/-- The state touched by `FEBioParameterApplier::apply`: the FEBio backing
store cells cached per parameter (`*_ptrs[i]`) and the parameter records. -/
structure ApplyState where
  fe : List ℚ
  params : List VFMParam
deriving DecidableEq, Repr

/-- One iteration body of the `apply` loop: `*(_ptrs[i]) = p[i]` and
`_s.params[i].value = p[i]`. -/
def commitParam (st : ApplyState) (i : ℕ) (x : ℚ) : ApplyState :=
  { fe := st.fe.set i x,
    params := st.params.set i { st.params.getD i default with value := x } }

/-- The `apply` loop: commit entries left to right, stopping with an error at
the first parameter whose cached location is missing.  The state mutated so
far remains (the C++ writes in place). -/
def applyGo (ptrs : List Bool) : ApplyState → ℕ → List ℚ → Option String × ApplyState
  | st, _, [] => (none, st)
  | st, i, x :: xs =>
    if ptrs.getD i false then applyGo ptrs (commitParam st i x) (i + 1) xs
    else (some ("null FE ptr for " ++ (st.params.getD i default).spec.name), st)

/-- `FEBioParameterApplier::apply`. -/
def FEBioParameterApplier.apply (ptrs : List Bool) (p : List ℚ) (st : ApplyState) :
    Option String × ApplyState :=
  if p.length ≠ st.params.length then (some "param size mismatch", st)
  else applyGo ptrs st 0 p

/-!  Internal virtual work (`vfm/InternalWork.hpp`, `InternalWorkAssembler`). -/

def VDefs.nTimesOf (vdef : VDefs) (v : ℕ) : ℕ := (vdef.getD v []).length

def VDefs.crefF (vdef : VDefs) (v t e g : ℕ) : Mat3 :=
  (((vdef.getD v []).getD t []).getD e []).getD g Mat3.zero

/-- `VirtualGradientFromDeformation` / the `toVirtGrad` lambda:
G = F* with 1 subtracted on the diagonal. -/
def virtGrad (Fstar : Mat3) : Mat3 :=
  { Fstar with a00 := Fstar.a00 - 1, a11 := Fstar.a11 - 1, a22 := Fstar.a22 - 1 }

/-- Internal-work value at (v, t), reading the virtual deformation at frame
`tsel`: Σₑ Σ_g P(t,e,g) : toVG(F*(v,tsel,e,g)) · jw[offset[e]+g]. -/
def iwTime (q : MeshQuad) (P : Defs) (vdef : VDefs) (toVG : Mat3 → Mat3)
    (v tsel t : ℕ) : ℚ :=
  sumR (fun e =>
    sumR (fun g =>
      Mat3.dotdot (crefEntry P t e g) (toVG (vdef.crefF v tsel e g))
        * q.jw.getD (q.offset.getD e 0 + g) 0)
      (q.gpPerElem.getD e 0))
    q.gpPerElem.length

/-- The per-virtual-field frame-count check of `InternalWorkAssembler`:
0 frames is an error; fewer than T frames is accepted only for exactly one
frame (time-invariant field); otherwise the field is indexed by t. -/
def iwCheckVF (T n : ℕ) : Except String Bool :=
  if n = 0 then .error "virtual field has no time steps."
  else if n < T then
    if n = 1 then .ok true
    else .error "virtual field has fewer time steps. A constant field can be defined using a single time entry."
  else .ok false

/-- The T entries contributed by virtual field v. -/
def iwRow (q : MeshQuad) (P : Defs) (vdef : VDefs) (toVG : Mat3 → Mat3)
    (T v : ℕ) (single : Bool) : List ℚ :=
  (List.range T).map (fun t => iwTime q P vdef toVG v (if single then 0 else t) t)

def internalWorkRows (q : MeshQuad) (P : Defs) (vdef : VDefs) (toVG : Mat3 → Mat3)
    (T : ℕ) : List ℕ → Except String (List ℚ)
  | [] => .ok []
  | v :: vs =>
    match iwCheckVF T (vdef.nTimesOf v) with
    | .error e => .error e
    | .ok single =>
      match internalWorkRows q P vdef toVG T vs with
      | .error e => .error e
      | .ok rest => .ok (iwRow q P vdef toVG T v single ++ rest)

/-- The assembly loop of `InternalWorkAssembler::operator()` (after the
parameter-setting and stress-recomputation callbacks have succeeded):
returns the flattened vector W[v·T + t]. -/
def internalWorkCore (q : MeshQuad) (vdef : VDefs) (P : Defs) (toVG : Mat3 → Mat3) :
    Except String (List ℚ) :=
  let VF := vdef.length
  let T := P.length
  if VF = 0 then .ok []
  else if T = 0 then .ok []
  else internalWorkRows q P vdef toVG T (List.range VF)

/-!  External virtual work (`ExternalVirtualWorkAssembler`, the `SurfaceMap`
based variant used by `solve_vfm_problem`). -/

structure LoadEntry where
  surface : String
  force : Vec3
deriving DecidableEq, Repr

/-- The `loads` list of one `LoadFrame`. -/
abbrev LoadFrame := List LoadEntry

/-- Resolved surface name → node-index list (`SurfaceMap`, `idx` member). -/
abbrev SurfaceMap := List (String × List ℕ)

/-- Virtual displacement fields: v → time → nodal field (`VirtualFields`). -/
abbrev VirtualFieldsU := List (List NodalField)

def VirtualFieldsU.uAt (virt : VirtualFieldsU) (v t : ℕ) : NodalField :=
  (virt.getD v []).getD t []

/-- Accumulation over one load frame's entries: look up the surface, take the
first node of its node set, and add `force · u*(node)`. -/
def evwAcc (sm : SurfaceMap) (uvt : NodalField) : ℚ → List LoadEntry → Except String ℚ
  | acc, [] => .ok acc
  | acc, entry :: rest =>
    match sm.lookup entry.surface with
    | none => .error ("missing surface mapping for " ++ entry.surface)
    | some nodes =>
      match nodes with
      | [] => .error ("surface with no nodes: " ++ entry.surface)
      | n0 :: _ => evwAcc sm uvt (acc + Vec3.dot entry.force (uvt.getNode n0)) rest

/-- Loop over virtual fields.  `useSingleTime` is threaded through the loop
exactly as in the C++ (declared before the loop and never reset): once a
virtual field with fewer frames than T is seen, the flag stays set. -/
def evwVs (sm : SurfaceMap) (virt : VirtualFieldsU) (loads : List LoadFrame) (T : ℕ) :
    Bool → List ℕ → Except String (List ℚ)
  | _, [] => .ok []
  | flag, v :: vs =>
    let flag2 := if (virt.getD v []).length < T then true else flag
    match mapExcept
        (fun t => evwAcc sm (virt.uAt v (if flag2 then 0 else t)) 0 (loads.getD t []))
        (List.range T) with
    | .error e => .error e
    | .ok row =>
      match evwVs sm virt loads T flag2 vs with
      | .error e => .error e
      | .ok rest => .ok (row ++ rest)

/-- `ExternalVirtualWorkAssembler::operator()`: the flattened W[v·T + t]. -/
def externalVirtualWork (sm : SurfaceMap) (virt : VirtualFieldsU)
    (loads : List LoadFrame) : Except String (List ℚ) :=
  let VF := virt.length
  let T := loads.length
  if VF = 0 ∨ T = 0 then .ok []
  else evwVs sm virt loads T false (List.range VF)

/-!  The Levenberg–Marquardt driver of `optimization/vfm_solver.cpp`
(`lm_internal_eval`, `run_vfm_levmar`, `solve_vfm_problem`).  The LM library
itself (`dlevmar_bc_dif`) is delegated: it is abstracted by the sequence of
trial vectors it feeds to the residual callback (each paired with the state
of the asynchronous cancellation flag at that evaluation), its return status,
and the parameter vector it leaves behind on success. -/

structure LMCtx where
  failed : Bool
  err : String
deriving DecidableEq, Repr

/-- The problem state mutated by a solve: the FEBio parameter backing store,
the parameter records, and the tensor stores of `VFMState`. -/
structure SolveState where
  femSet : Bool
  fe : List ℚ
  params : List VFMParam
  defF : Defs
  sigma : Defs
  piola : Defs
deriving DecidableEq, Repr

/-- Read-only collaborators of a solve. -/
structure SolveEnv where
  ptrs : List Bool
  quad : MeshQuad
  vdef : VDefs
  mat : List ℚ → ℕ → ℕ → Mat3 → Except String Mat3s
  surfaces : SurfaceMap
  virtuals : VirtualFieldsU
  loads : List LoadFrame
  useBounds : Bool

/-- The `computeStress` closure of `solve_vfm_problem`: Cauchy then first
Piola over the measured deformation store, with the material reading the
currently applied parameter values.  On failure the previous stores are kept
(the C++ overwrites the shared store entry by entry; a failure at the first
integration point leaves it untouched). -/
def computeStressStep (env : SolveEnv) (st : SolveState) : Except String (Defs × Defs) :=
  match StressEval.cauchy st.defF (env.mat st.fe) with
  | .error e => .error e
  | .ok S =>
    match StressEval.first_piola st.defF S with
    | .error e => .error e
    | .ok P => .ok (S, P)

/-- `InternalWorkAssembler::operator()`: apply the trial parameters, recompute
the stress store, then run the assembly loop.  Returns the mutated state and
the flattened internal-work vector or an error. -/
def internalWorkOp (env : SolveEnv) (st : SolveState) (trial : List ℚ) :
    SolveState × Except String (List ℚ) :=
  match FEBioParameterApplier.apply env.ptrs trial ⟨st.fe, st.params⟩ with
  | (some e, as2) => ({ st with fe := as2.fe, params := as2.params }, .error e)
  | (none, as2) =>
    let st1 := { st with fe := as2.fe, params := as2.params }
    match computeStressStep env st1 with
    | .error e => (st1, .error e)
    | .ok (S, P) =>
      let st2 := { st1 with sigma := S, piola := P }
      (st2, internalWorkCore env.quad env.vdef P virtGrad)

/-- One residual evaluation (`lm_internal_eval`).  `n` is the residual length
expected by LM; `cancel` is the cancellation flag at this evaluation. -/
def lmEval (env : SolveEnv) (n : ℕ) (stctx : SolveState × LMCtx)
    (ev : Bool × List ℚ) : SolveState × LMCtx :=
  let (st, ctx) := stctx
  let (cancel, trial) := ev
  if ctx.failed then (st, ctx)
  else if cancel then
    (st, { failed := true, err := if ctx.err = "" then "optimization interrupted" else ctx.err })
  else
    match internalWorkOp env st trial with
    | (st2, .error e) =>
      if (0 : ℕ) ≠ n then
        (st2, { failed := true, err := if e = "" then "internal work dimension mismatch" else e })
      else (st2, { ctx with err := if e = "" then ctx.err else e })
    | (st2, .ok iw) =>
      if iw.length ≠ n then
        (st2, { failed := true, err := "internal work dimension mismatch" })
      else (st2, ctx)

/-- All residual evaluations performed by the delegated LM run. -/
def runLMEvals (env : SolveEnv) (n : ℕ) (st : SolveState)
    (schedule : List (Bool × List ℚ)) : SolveState × LMCtx :=
  schedule.foldl (lmEval env n) (st, ⟨false, ""⟩)

/-- `run_vfm_levmar`: early exits, the LM run, and the failure decoding. -/
def run_vfm_levmar (env : SolveEnv) (st : SolveState) (params ew lower upper : List ℚ)
    (schedule : List (Bool × List ℚ)) (status : Int) (pOut : List ℚ) :
    Bool × String × SolveState × List ℚ :=
  if params = [] then (true, "", st, params)
  else if ew = [] then (false, "external work vector is empty", st, params)
  else if env.useBounds ∧ (lower.length ≠ params.length ∨ upper.length ≠ params.length) then
    (false, "bounds size mismatch", st, params)
  else
    let r := runLMEvals env ew.length st schedule
    if r.2.failed then
      (false,
       if r.2.err = "" ∧ schedule.any (fun ev => ev.1) then "optimization interrupted"
       else r.2.err,
       r.1, params)
    else if status < 0 then
      (false, if r.2.err = "" then "levmar failed" else r.2.err, r.1, params)
    else (true, r.2.err, r.1, pOut)

/-- Lines 592–593 of `solve_vfm_problem`: mirror the LM output vector into the
parameter records once more. -/
def mirrorValues (ps : List VFMParam) (p : List ℚ) : List VFMParam :=
  (List.range ps.length).map (fun i => { ps.getD i default with value := p.getD i 0 })

/-- `solve_vfm_problem` (through the final stress recomputation; the rest of
the function is logging and the optional virtual-work CSV export). -/
def solve_vfm_problem (env : SolveEnv) (st : SolveState)
    (schedule : List (Bool × List ℚ)) (status : Int) (pOut : List ℚ) :
    Bool × String × SolveState :=
  if ¬ st.femSet then (false, "VFM problem not initialized", st)
  else if st.params = [] then (true, "", st)
  else
    match externalVirtualWork env.surfaces env.virtuals env.loads with
    | .error e => (false, e, st)
    | .ok ew =>
      if ew = [] then (true, "", st)
      else
        let p0 := st.params.map (fun q => q.value)
        let lower := st.params.map (fun q => q.spec.lo)
        let upper := st.params.map (fun q => q.spec.hi)
        match run_vfm_levmar env st p0 ew lower upper schedule status pOut with
        | (false, e, st2, _) => (false, e, st2)
        | (true, _, st2, pFin) =>
          match FEBioParameterApplier.apply env.ptrs pFin ⟨st2.fe, st2.params⟩ with
          | (some e, as2) => (false, e, { st2 with fe := as2.fe, params := as2.params })
          | (none, as2) =>
            let st3 := { st2 with fe := as2.fe, params := mirrorValues as2.params pFin }
            match computeStressStep env st3 with
            | .error e => (false, e, st3)
            | .ok SP => (true, "", { st3 with sigma := SP.1, piola := SP.2 })

/-!  Reference stores and predicates used to state the properties, plus the
concrete inputs used by witnesses and counterexamples. -/

/-- Store with `T` frames of the mesh's element × gauss-point shape, holding a
constant entry. -/
def constStore (q : MeshQuad) (T : ℕ) (M : Mat3) : Defs :=
  (List.range T).map (fun _ =>
    (List.range q.gpPerElem.length).map (fun e =>
      (List.range (q.gpPerElem.getD e 0)).map (fun _ => M)))

/-- Entry-wise image of a store, keeping its ragged shape. -/
def mapStore (F : Defs) (f : ℕ → ℕ → ℕ → Mat3) : Defs :=
  (List.range F.length).map (fun t =>
    (List.range (F.getD t []).length).map (fun e =>
      (List.range ((F.getD t []).getD e []).length).map (fun g => f t e g)))

/-- The first-Piola store described by the spec: P = J σ F⁻ᵀ entry by entry. -/
def piolaSpec (F S : Defs) : Defs :=
  mapStore F (fun t e g =>
    ((crefEntry S t e g).mul (crefEntry F t e g).inv.transpose).smul (crefEntry F t e g).det)

/-- The internal-work vector with the dispatch rule stated by the spec:
frame 0 for a single-frame virtual field, frame t otherwise. -/
def iwSpec (q : MeshQuad) (vdef : VDefs) (P : Defs) (toVG : Mat3 → Mat3) : List ℚ :=
  ((List.range vdef.length).map (fun v =>
    (List.range P.length).map (fun t =>
      iwTime q P vdef toVG v (if vdef.nTimesOf v = 1 then 0 else t) t))).flatten

/-- The virtual-field frame counts accepted by `InternalWorkAssembler`
(given a stress store with `T ≥ 1` frames): exactly one frame, or at least
`T` frames. -/
def legalVF (vdef : VDefs) (T v : ℕ) : Prop :=
  vdef.nTimesOf v = 1 ∨ T ≤ vdef.nTimesOf v

/-- One element with one integration point of weight 1. -/
def quadOne : MeshQuad := ⟨[1], [0, 1], [1]⟩

/-- A material provider that succeeds at the initial parameter value 1 and
fails at any other applied parameter value. -/
def matFailAway : List ℚ → ℕ → ℕ → Mat3 → Except String Mat3s :=
  fun fe _ _ _ =>
    if fe.getD 0 0 = 1 then .ok Mat3s.zero else .error "material stress evaluation failed"

def envLMFail : SolveEnv :=
  ⟨[true], quadOne, [[[[Mat3.id]]]], matFailAway, [("grip", [0])], [[[⟨1, 0, 0⟩]]],
   [[⟨"grip", ⟨1, 0, 0⟩⟩]], true⟩

/-- Pre-run state: θ₀ = (1), stresses built from θ₀. -/
def stLMFail : SolveState :=
  ⟨true, [1], [⟨⟨"mu", 1, 0, 10, 1⟩, 1⟩], [[[Mat3.id]]], [[[Mat3.zero]]], [[[Mat3.zero]]]⟩

/-- One virtual field carrying two frames. -/
def vdefTwoFrames : VDefs := [[[[Mat3.id]], [[Mat3.id]]]]

/-- A first-Piola store with a single frame. -/
def pOneFrame : Defs := [[[Mat3.id]]]

def smGrip : SurfaceMap := [("top", [0])]

/-- Two virtual fields: field 0 has one frame, field 1 has two frames whose
displacements at node 0 differ across frames. -/
def virtSticky : VirtualFieldsU := [[[⟨0, 0, 0⟩]], [[⟨1, 0, 0⟩], [⟨2, 0, 0⟩]]]

def loadsTwo : List LoadFrame := [[⟨"top", ⟨1, 0, 0⟩⟩], [⟨"top", ⟨1, 0, 0⟩⟩]]

/-- Two registered parameters named "a" and "b". -/
def stTwoParams : ApplyState :=
  ⟨[0, 0], [⟨⟨"a", 0, 0, 1, 1⟩, 0⟩, ⟨⟨"b", 0, 0, 1, 1⟩, 0⟩]⟩

def envIdle : SolveEnv := ⟨[], ⟨[], [], []⟩, [], fun _ _ _ _ => .ok Mat3s.zero, [], [], [], true⟩

def stIdle : SolveState := ⟨true, [], [], [], [], []⟩

/-- A single-node shape provider with reference gradient (1,0,0). -/
def spOneNode : ShapeProvider := ⟨fun _ => [0], fun _ _ => [⟨1, 0, 0⟩]⟩

/-- The state `solve_vfm_problem` leaves behind at the C1 failing input: the
trial vector (2) applied, stresses as rebuilt at θ₀ during the first
evaluation. -/
def stLMFailPost : SolveState :=
  ⟨true, [2], [⟨⟨"mu", 1, 0, 10, 1⟩, 2⟩], [[[Mat3.id]]], [[[Mat3.zero]]], [[[Mat3.zero]]]⟩

/-- The deformation gradient `compute_measured` stores at one point: `F_at`,
post-processed when the plane-deformation flag is set. -/
def procF (sp : ShapeProvider) (pd : Bool) (ut : NodalField) (e g : ℕ) : Mat3 :=
  if pd then planeProcess (F_at e g sp ut) else F_at e g sp ut

/-- The store `compute_measured` produces when every determinant is positive. -/
def measuredSpec (q : MeshQuad) (sp : ShapeProvider) (U : List NodalField)
    (pd : Bool) : Defs :=
  U.map (fun ut =>
    (List.range q.gpPerElem.length).map (fun e =>
      (List.range (q.gpPerElem.getD e 0)).map (fun g => procF sp pd ut e g)))

/-- The store `compute_virtuals` produces when every determinant is positive. -/
def virtualSpec (q : MeshQuad) (sp : ShapeProvider) (UV : List (List NodalField)) : VDefs :=
  UV.map (fun ts =>
    ts.map (fun ut =>
      (List.range q.gpPerElem.length).map (fun e =>
        (List.range (q.gpPerElem.getD e 0)).map (fun g => F_at e g sp ut))))

/-- One registered parameter named "a" with a cached location. -/
def stOneParam : ApplyState := ⟨[0], [⟨⟨"a", 0, 0, 1, 1⟩, 0⟩]⟩

/-- One virtual field with a single frame. -/
def vdefOneFrame : VDefs := [[[[Mat3.id]]]]

/-- A first-Piola store with two frames. -/
def pTwoFrames : Defs := [[[Mat3.id]], [[Mat3.id]]]

theorem mapExcept_eq_map (f : α → Except String β) (g : α → β) :
    ∀ l : List α, (∀ a ∈ l, f a = .ok (g a)) → mapExcept f l = .ok (l.map g) := by
  intro l
  induction l with
  | nil => intro _; rfl
  | cons a as ih =>
    intro h
    have ha : f a = .ok (g a) := h a (List.mem_cons_self a as)
    have hrest : mapExcept f as = .ok (as.map g) :=
      ih (fun b hb => h b (List.mem_cons_of_mem a hb))
    simp [mapExcept, ha, hrest]

theorem mapExcept_ok_mem (f : α → Except String β) :
    ∀ (l : List α) (w : List β), mapExcept f l = .ok w →
      ∀ a ∈ l, ∃ b, f a = .ok b := by
  intro l
  induction l with
  | nil => intro w _ a ha; cases ha
  | cons a as ih =>
    intro w hw b hb
    cases hfa : f a with
    | error e => rw [mapExcept, hfa] at hw; cases hw
    | ok v =>
      cases hrest : mapExcept f as with
      | error e => rw [mapExcept, hfa, hrest] at hw; cases hw
      | ok vs =>
        rcases List.mem_cons.mp hb with hba | hbas
        · exact ⟨v, hba ▸ hfa⟩
        · exact ih vs hrest b hbas

theorem mapExcept_error_mem (f : α → Except String β) :
    ∀ (l : List α) (e : String), mapExcept f l = .error e →
      ∃ a ∈ l, f a = .error e := by
  intro l
  induction l with
  | nil => intro e he; cases he
  | cons a as ih =>
    intro e he
    cases hfa : f a with
    | error e2 =>
      rw [mapExcept, hfa] at he
      injection he with hee
      subst hee
      exact ⟨a, List.mem_cons_self a as, hfa⟩
    | ok v =>
      cases hrest : mapExcept f as with
      | error e2 =>
        rw [mapExcept, hfa, hrest] at he
        injection he with hee
        subst hee
        rcases ih e2 hrest with ⟨b, hb, hfb⟩
        exact ⟨b, List.mem_cons_of_mem a hb, hfb⟩
      | ok vs => rw [mapExcept, hfa, hrest] at he; cases he

theorem except_error_of_not_ok {r : Except String β} (h : ∀ w, r ≠ .ok w) :
    ∃ e, r = .error e := by
  cases r with
  | error e => exact ⟨e, rfl⟩
  | ok w => exact absurd rfl (h w)

theorem getD_map_of_lt (f : α → β) (l : List α) (d : α) (d2 : β) :
    ∀ k, k < l.length → (l.map f).getD k d2 = f (l.getD k d) := by
  induction l with
  | nil => intro k hk; cases hk
  | cons a as ih =>
    intro k hk
    cases k with
    | zero => rfl
    | succ m =>
      have hm : m < as.length := Nat.lt_of_succ_lt_succ hk
      simpa [List.getD] using ih m hm

/-!  List helper lemmas. -/

theorem getD_set_self (l : List α) (i : ℕ) (x d : α) :
    i < l.length → (l.set i x).getD i d = x := by
  induction l generalizing i with
  | nil => intro h; cases h
  | cons a as ih =>
    intro h
    cases i with
    | zero => rfl
    | succ m => simpa [List.getD] using ih m (Nat.lt_of_succ_lt_succ h)

theorem getD_set_other (l : List α) (i k : ℕ) (x d : α) (h : i ≠ k) :
    (l.set i x).getD k d = l.getD k d := by
  induction l generalizing i k with
  | nil => simp [List.set]
  | cons a as ih =>
    cases i with
    | zero =>
      cases k with
      | zero => exact absurd rfl h
      | succ m => rfl
    | succ n =>
      cases k with
      | zero => rfl
      | succ m =>
        simpa [List.getD] using ih n m (fun hnm => h (by rw [hnm]))

theorem getD_append_small (l l2 : List α) (i : ℕ) (d : α) (h : i < l.length) :
    (l ++ l2).getD i d = l.getD i d := by
  induction l generalizing i with
  | nil => cases h
  | cons a as ih =>
    cases i with
    | zero => rfl
    | succ m => simpa [List.getD] using ih m (Nat.lt_of_succ_lt_succ h)

theorem getD_append_big (l l2 : List α) (i : ℕ) (d : α) (h : l.length ≤ i) :
    (l ++ l2).getD i d = l2.getD (i - l.length) d := by
  induction l generalizing i with
  | nil => simp
  | cons a as ih =>
    cases i with
    | zero => simp at h
    | succ m =>
      have hm : as.length ≤ m := by simpa using h
      have hsub : m + 1 - (a :: as).length = m - as.length := by
        simp [List.length_cons]
      rw [hsub]
      simpa [List.getD] using ih m hm

theorem getD_range_self (n k : ℕ) (h : k < n) : (List.range n).getD k 0 = k := by
  induction n with
  | zero => cases h
  | succ m ih =>
    rw [List.range_succ]
    rcases Nat.lt_or_ge k m with hk | hk
    · rw [getD_append_small _ _ _ _ (by simpa using hk)]
      exact ih hk
    · have hkm : k = m := by omega
      subst hkm
      rw [getD_append_big _ _ _ _ (by simp)]
      simp

theorem flatten_getD_uniform (T : ℕ) :
    ∀ (rows : List (List ℚ)), (∀ r ∈ rows, r.length = T) →
      ∀ v t, v < rows.length → t < T →
        rows.flatten.getD (v * T + t) 0 = (rows.getD v []).getD t 0 := by
  intro rows
  induction rows with
  | nil => intro _ v t hv _; cases hv
  | cons r rest ih =>
    intro hT v t hv ht
    have hr : r.length = T := hT r (List.mem_cons_self r rest)
    have hflat : (r :: rest).flatten = r ++ rest.flatten := rfl
    cases v with
    | zero =>
      have hz : 0 * T + t = t := by omega
      rw [hflat, hz, getD_append_small _ _ _ _ (by omega)]
      rfl
    | succ w =>
      have hbig : r.length ≤ (w + 1) * T + t := by rw [hr]; nlinarith
      have hsub : (w + 1) * T + t - r.length = w * T + t := by rw [hr]; ring_nf; omega
      rw [hflat, getD_append_big _ _ _ _ hbig, hsub]
      have hrest := ih (fun r2 h2 => hT r2 (List.mem_cons_of_mem r h2)) w t
        (Nat.lt_of_succ_lt_succ hv) ht
      simpa [List.getD] using hrest

/-- C8: the plane-deformation post-process (zero the out-of-plane shears, set
F₂₂ = 1/(F₀₀·F₁₁)) is idempotent: applying it twice to any 3×3 matrix gives
the same result as applying it once. -/
theorem planeDeformation_idempotent (F : Mat3) :
    planeProcess (planeProcess F) = planeProcess F := rfl

/-- C10: with the problem initialized and no registered parameters,
`solve_vfm_problem` returns success immediately ("No parameters to
optimize."), for every LM schedule, status and output vector, and leaves the
whole problem state unchanged. -/
theorem solve_noParams_noop (env : SolveEnv) (st : SolveState)
    (schedule : List (Bool × List ℚ)) (status : Int) (pOut : List ℚ)
    (hfem : st.femSet = true) (hp : st.params = []) :
    solve_vfm_problem env st schedule status pOut = (true, "", st) := by
  simp [solve_vfm_problem, hfem, hp]

theorem solve_noParams_noop_witness :
    solve_vfm_problem envIdle stIdle [] 0 [] = (true, "", stIdle) :=
  solve_noParams_noop envIdle stIdle [] 0 [] rfl rfl

/-- C1 (evaluation at the failing input): starting from θ₀ = (1), an LM run
whose second residual evaluation is at the trial vector (2) and fails inside
the constitutive evaluation makes `solve_vfm_problem` return a non-success
exit whose post-run parameter records hold the trial value 2, not θ₀ = 1:
the driver performs no restoration. -/
theorem solve_lm_failure_keeps_trial_params :
    (solve_vfm_problem envLMFail stLMFail [(false, [1]), (false, [2])] 0 [1]).1 = false
    ∧ (solve_vfm_problem envLMFail stLMFail [(false, [1]), (false, [2])] 0 [1]).2.2.params.map
        (fun q => q.value) = [2]
    ∧ stLMFail.params.map (fun q => q.value) = [1] := by
  have h : solve_vfm_problem envLMFail stLMFail [(false, [1]), (false, [2])] 0 [1]
      = (false, "material stress evaluation failed", stLMFailPost) := by
    norm_num [solve_vfm_problem, run_vfm_levmar, runLMEvals, lmEval, internalWorkOp,
      computeStressStep, StressEval.cauchy, StressEval.first_piola, crefEntry,
      FEBioParameterApplier.apply, applyGo, commitParam, internalWorkCore,
      internalWorkRows, iwCheckVF, iwRow, iwTime, sumR, VDefs.nTimesOf, VDefs.crefF,
      virtGrad, externalVirtualWork, evwVs, evwAcc, mapExcept, VirtualFieldsU.uAt,
      NodalField.getNode, Vec3.dot, Mat3.dotdot, Mat3.det, Mat3.inv, Mat3.transpose,
      Mat3.mul, Mat3.smul, Mat3s.toMat3, Mat3.id, Mat3.zero, Mat3s.zero,
      envLMFail, stLMFail, stLMFailPost, quadOne, matFailAway, List.range_succ,
      List.lookup]
    intro hcontra
    exact absurd hcontra (by decide)
  rw [h]
  norm_num [stLMFail, stLMFailPost]

/-- C3 (evaluation at the failing input): with virtual field 0 carrying one
frame and virtual field 1 carrying T = 2 frames, the assembler's
`useSingleTime` flag—declared outside the loop over virtual fields—latches at
field 0 and makes field 1 use its frame 0 at every time: W[1·T+1] evaluates
to 1 = force · u*(1, 0, node₀), while the per-virtual-field rule of the claim
demands force · u*(1, 1, node₀) = 2. -/
theorem externalWork_singleTime_flag_latches :
    externalVirtualWork smGrip virtSticky loadsTwo = .ok [0, 0, 1, 1]
    ∧ Vec3.dot ⟨1, 0, 0⟩ ((virtSticky.uAt 1 1).getNode 0) = 2
    ∧ ([0, 0, 1, 1] : List ℚ).getD 3 0 ≠ Vec3.dot ⟨1, 0, 0⟩ ((virtSticky.uAt 1 1).getNode 0) := by
  refine ⟨?_, ?_, ?_⟩
  · norm_num [externalVirtualWork, evwVs, evwAcc, mapExcept, VirtualFieldsU.uAt,
      NodalField.getNode, Vec3.dot, smGrip, virtSticky, loadsTwo, List.range_succ,
      List.lookup]
  · norm_num [VirtualFieldsU.uAt, NodalField.getNode, Vec3.dot, virtSticky]
  · norm_num [VirtualFieldsU.uAt, NodalField.getNode, Vec3.dot, virtSticky]

/-- C2 counterexample: a virtual field carrying 2 frames while the stress
store has T = 1 frame is neither a single-frame field nor a T-frame field,
yet the assembly succeeds (dispatching frame t) instead of failing. -/
theorem internalWork_excess_frames_not_fatal :
    internalWorkCore quadOne vdefTwoFrames pOneFrame virtGrad = .ok [0] := by
  norm_num [internalWorkCore, internalWorkRows, iwCheckVF, iwRow, iwTime, sumR,
    crefEntry, VDefs.nTimesOf, VDefs.crefF, virtGrad, Mat3.dotdot, Mat3.id,
    quadOne, vdefTwoFrames, pOneFrame, List.range_succ]

/-- C4 counterexample: with parameter "a" cached and parameter "b" missing,
`apply (5, 7)` reports the failure only after committing 5 into parameter
"a"'s backing store and record: the partial commit is visible to callers. -/
theorem apply_partial_commit_visible :
    (FEBioParameterApplier.apply [true, false] [5, 7] stTwoParams).1
      = some "null FE ptr for b"
    ∧ (FEBioParameterApplier.apply [true, false] [5, 7] stTwoParams).2.fe = [5, 0]
    ∧ ((FEBioParameterApplier.apply [true, false] [5, 7] stTwoParams).2.params.getD 0
        default).value = 5
    ∧ stTwoParams.fe = [0, 0] := by
  refine ⟨?_, ?_, ?_, ?_⟩ <;> rfl

/-!  Kinematics and store lemmas. -/

theorem outer_zero_left (G : Vec3) : Mat3.outer Vec3.zero G = Mat3.zero := by
  simp [Mat3.outer, Vec3.zero, Mat3.zero]

theorem add_zero_mat (A : Mat3) : A.add Mat3.zero = A := by
  simp [Mat3.add, Mat3.zero]

theorem foldl_outer_zero (ut : NodalField) (hu : ∀ i, ut.getNode i = Vec3.zero)
    (en : List ℕ) (dN : List Vec3) :
    ∀ (l : List ℕ) (F0 : Mat3),
      l.foldl (fun F a =>
        F.add (Mat3.outer (ut.getNode (en.getD a 0)) (dN.getD a Vec3.zero))) F0 = F0 := by
  intro l
  induction l with
  | nil => intro F0; rfl
  | cons a as ih =>
    intro F0
    rw [List.foldl_cons, hu, outer_zero_left, add_zero_mat]
    exact ih F0

theorem F_at_zero_field (sp : ShapeProvider) (ut : NodalField)
    (hu : ∀ i, ut.getNode i = Vec3.zero) (e g : ℕ) : F_at e g sp ut = Mat3.id :=
  foldl_outer_zero ut hu (sp.elemNodes e) (sp.gradN e g)
    (List.range (sp.elemNodes e).length) Mat3.id

theorem planeProcess_id : planeProcess Mat3.id = Mat3.id := by
  norm_num [planeProcess, Mat3.id]

theorem defgradChecked_pos (c : Bool) (F : Mat3) (h : 0 < F.det) :
    defgradChecked c F = .ok F := by
  have : ¬ (c ∧ F.det ≤ 0) := fun hc => absurd h (not_lt.mpr hc.2)
  simp [defgradChecked, this]

theorem defgradChecked_neg (F : Mat3) (h : F.det ≤ 0) :
    defgradChecked true F = .error "non-positive det(F)" := by
  simp [defgradChecked, h]

theorem defgradChecked_error_msg (c : Bool) (F : Mat3) (e : String)
    (h : defgradChecked c F = .error e) : e = "non-positive det(F)" := by
  unfold defgradChecked at h
  by_cases hc : c ∧ F.det ≤ 0
  · rw [if_pos hc] at h
    injection h with h2
    exact h2.symm
  · rw [if_neg hc] at h
    cases h

theorem defgradChecked_id (c : Bool) : defgradChecked c Mat3.id = .ok Mat3.id := by
  apply defgradChecked_pos
  norm_num [Mat3.det, Mat3.id]

theorem constStore_length (q : MeshQuad) (T : ℕ) (M : Mat3) :
    (constStore q T M).length = T := by simp [constStore]

theorem constStore_getD (q : MeshQuad) (T : ℕ) (M : Mat3) (t : ℕ) (ht : t < T) :
    (constStore q T M).getD t []
      = (List.range q.gpPerElem.length).map (fun e =>
          (List.range (q.gpPerElem.getD e 0)).map (fun _ => M)) := by
  unfold constStore
  rw [getD_map_of_lt _ _ 0 _ t (by simpa using ht)]

theorem constFrame_getD (q : MeshQuad) (M : Mat3) (e : ℕ) (he : e < q.gpPerElem.length) :
    ((List.range q.gpPerElem.length).map (fun e2 =>
        (List.range (q.gpPerElem.getD e2 0)).map (fun _ => M))).getD e []
      = (List.range (q.gpPerElem.getD e 0)).map (fun _ => M) := by
  rw [getD_map_of_lt _ _ 0 _ e (by simpa using he), getD_range_self _ _ he]

theorem crefEntry_constStore (q : MeshQuad) (T : ℕ) (M : Mat3) (t e g : ℕ)
    (ht : t < T) (he : e < q.gpPerElem.length) (hg : g < q.gpPerElem.getD e 0) :
    crefEntry (constStore q T M) t e g = M := by
  unfold crefEntry
  rw [constStore_getD q T M t ht, constFrame_getD q M e he,
    getD_map_of_lt _ _ 0 _ g (by simpa using hg)]

theorem mapStore_length (F : Defs) (f : ℕ → ℕ → ℕ → Mat3) :
    (mapStore F f).length = F.length := by simp [mapStore]

theorem mapStore_getD (F : Defs) (f : ℕ → ℕ → ℕ → Mat3) (t : ℕ) (ht : t < F.length) :
    (mapStore F f).getD t []
      = (List.range (F.getD t []).length).map (fun e =>
          (List.range ((F.getD t []).getD e []).length).map (fun g => f t e g)) := by
  unfold mapStore
  rw [getD_map_of_lt _ _ 0 _ t (by simpa using ht), getD_range_self _ _ ht]

theorem mapStore_getD_len (F : Defs) (f : ℕ → ℕ → ℕ → Mat3) (t : ℕ) (ht : t < F.length) :
    ((mapStore F f).getD t []).length = (F.getD t []).length := by
  rw [mapStore_getD F f t ht]; simp

theorem mapStore_getD2 (F : Defs) (f : ℕ → ℕ → ℕ → Mat3) (t e : ℕ)
    (ht : t < F.length) (he : e < (F.getD t []).length) :
    ((mapStore F f).getD t []).getD e []
      = (List.range ((F.getD t []).getD e []).length).map (fun g => f t e g) := by
  rw [mapStore_getD F f t ht,
    getD_map_of_lt _ _ 0 _ e (by simpa using he), getD_range_self _ _ he]

theorem mapStore_getD2_len (F : Defs) (f : ℕ → ℕ → ℕ → Mat3) (t e : ℕ)
    (ht : t < F.length) (he : e < (F.getD t []).length) :
    (((mapStore F f).getD t []).getD e []).length = ((F.getD t []).getD e []).length := by
  rw [mapStore_getD2 F f t e ht he]; simp

theorem crefEntry_mapStore (F : Defs) (f : ℕ → ℕ → ℕ → Mat3) (t e g : ℕ)
    (ht : t < F.length) (he : e < (F.getD t []).length)
    (hg : g < ((F.getD t []).getD e []).length) :
    crefEntry (mapStore F f) t e g = f t e g := by
  unfold crefEntry
  rw [mapStore_getD2 F f t e ht he,
    getD_map_of_lt _ _ 0 _ g (by simpa using hg), getD_range_self _ _ hg]

/-- The common shape of `StressEval::cauchy` and `StressEval::first_piola`:
a triple loop over the deformation store's indices that can fail pointwise. -/
theorem tripleRange_ok (F : Defs) (f : ℕ → ℕ → ℕ → Except String Mat3)
    (val : ℕ → ℕ → ℕ → Mat3)
    (h : ∀ t e g, t < F.length → e < (F.getD t []).length →
        g < ((F.getD t []).getD e []).length → f t e g = .ok (val t e g)) :
    mapExcept (fun t =>
      mapExcept (fun e =>
        mapExcept (fun g => f t e g)
          (List.range ((F.getD t []).getD e []).length))
        (List.range (F.getD t []).length))
      (List.range F.length)
    = .ok (mapStore F val) := by
  unfold mapStore
  apply mapExcept_eq_map
  intro t htm
  have ht : t < F.length := List.mem_range.mp htm
  apply mapExcept_eq_map
  intro e hem
  have he : e < (F.getD t []).length := List.mem_range.mp hem
  apply mapExcept_eq_map
  intro g hgm
  have hg : g < ((F.getD t []).getD e []).length := List.mem_range.mp hgm
  exact h t e g ht he hg

theorem mapStore_constStore (q : MeshQuad) (T : ℕ) (M M2 : Mat3) :
    mapStore (constStore q T M) (fun _ _ _ => M2) = constStore q T M2 := by
  unfold mapStore
  rw [constStore_length]
  apply List.map_congr_left
  intro t htm
  have ht := List.mem_range.mp htm
  rw [constStore_getD q T M t ht]
  simp only [List.length_map, List.length_range]
  apply List.map_congr_left
  intro e hem
  have he := List.mem_range.mp hem
  rw [constFrame_getD q M e he]
  simp only [List.length_map, List.length_range]

/-- C5: if the measured nodal displacement field is identically zero, the
kinematic reconstruction succeeds and produces F = I at every integration
point (with or without the plane-deformation flag), and for a material law
with σ(I) = 0 (at the applied parameter vector baked into `mat`) the computed
Cauchy stress store is zero at every integration point. -/
theorem zero_displacement_identity (q : MeshQuad) (sp : ShapeProvider)
    (U : List NodalField) (pd : Bool) (mat : ℕ → ℕ → Mat3 → Except String Mat3s)
    (hU : ∀ ut ∈ U, ∀ i, ut.getNode i = Vec3.zero)
    (hmat : ∀ e g, mat e g Mat3.id = .ok Mat3s.zero) :
    Kinematics.compute_measured q sp U pd true = .ok (constStore q U.length Mat3.id)
    ∧ StressEval.cauchy (constStore q U.length Mat3.id) mat
        = .ok (constStore q U.length Mat3.zero)
    ∧ (∀ t e g, t < U.length → e < q.gpPerElem.length → g < q.gpPerElem.getD e 0 →
        crefEntry (constStore q U.length Mat3.id) t e g = Mat3.id
        ∧ crefEntry (constStore q U.length Mat3.zero) t e g = Mat3.zero) := by
  refine ⟨?_, ?_, ?_⟩
  · have h1 : Kinematics.compute_measured q sp U pd true
        = .ok (U.map (fun _ =>
            (List.range q.gpPerElem.length).map (fun e =>
              (List.range (q.gpPerElem.getD e 0)).map (fun _ => Mat3.id)))) := by
      unfold Kinematics.compute_measured
      apply mapExcept_eq_map
      intro ut hut
      apply mapExcept_eq_map
      intro e _
      apply mapExcept_eq_map
      intro g _
      show defgradChecked true
          (if pd then planeProcess (F_at e g sp ut) else F_at e g sp ut) = .ok Mat3.id
      rw [F_at_zero_field sp ut (hU ut hut) e g]
      cases pd <;> simp [planeProcess_id, defgradChecked_id]
    rw [h1]
    unfold constStore
    rw [List.map_const', List.map_const', List.length_range]
  · have h2 : StressEval.cauchy (constStore q U.length Mat3.id) mat
        = .ok (mapStore (constStore q U.length Mat3.id) (fun _ _ _ => Mat3.zero)) := by
      apply tripleRange_ok
      intro t e g ht he hg
      rw [constStore_length] at ht
      rw [constStore_getD q U.length Mat3.id t ht] at he hg
      simp only [List.length_map, List.length_range] at he
      rw [constFrame_getD q Mat3.id e he] at hg
      simp only [List.length_map, List.length_range] at hg
      show (match mat e g (crefEntry (constStore q U.length Mat3.id) t e g) with
        | .error e2 => Except.error e2
        | .ok s => Except.ok s.toMat3) = .ok Mat3.zero
      rw [crefEntry_constStore q U.length Mat3.id t e g ht he hg, hmat e g]
      rfl
    rw [h2, mapStore_constStore]
  · intro t e g ht he hg
    exact ⟨crefEntry_constStore q U.length Mat3.id t e g ht he hg,
      crefEntry_constStore q U.length Mat3.zero t e g ht he hg⟩

theorem zero_displacement_identity_witness :
    Kinematics.compute_measured quadOne spOneNode [[Vec3.zero]] false true
      = .ok (constStore quadOne 1 Mat3.id)
    ∧ StressEval.cauchy (constStore quadOne 1 Mat3.id) (fun _ _ _ => .ok Mat3s.zero)
      = .ok (constStore quadOne 1 Mat3.zero) := by
  have h := zero_displacement_identity quadOne spOneNode [[Vec3.zero]] false
    (fun _ _ _ => .ok Mat3s.zero)
    (by
      intro ut hut i
      rw [List.mem_singleton] at hut
      subst hut
      cases i <;> rfl)
    (fun e g => rfl)
  exact ⟨h.1, h.2.1⟩

/-- C7: wherever every deformation gradient of the store has positive
determinant, `StressEval::first_piola` succeeds and returns the store with
P(t,e,g) = (σ(t,e,g) · F(t,e,g)⁻ᵀ) · det F(t,e,g), of exactly the same
element × gauss-point shape as F; if det F ≤ 0 at any point of the store it
fails with "non-positive detF" and never returns a P store. -/
theorem first_piola_jsigmaFinvT (F S : Defs) :
    ((∀ t e g, t < F.length → e < (F.getD t []).length →
          g < ((F.getD t []).getD e []).length → 0 < (crefEntry F t e g).det) →
        StressEval.first_piola F S = .ok (piolaSpec F S))
    ∧ (piolaSpec F S).length = F.length
    ∧ (∀ t, t < F.length →
        ((piolaSpec F S).getD t []).length = (F.getD t []).length
        ∧ ∀ e, e < (F.getD t []).length →
            (((piolaSpec F S).getD t []).getD e []).length
              = ((F.getD t []).getD e []).length)
    ∧ (∀ t e g, t < F.length → e < (F.getD t []).length →
          g < ((F.getD t []).getD e []).length →
          crefEntry (piolaSpec F S) t e g
            = ((crefEntry S t e g).mul (crefEntry F t e g).inv.transpose).smul
                (crefEntry F t e g).det)
    ∧ ((∃ t, t < F.length ∧ ∃ e, e < (F.getD t []).length ∧
          ∃ g, g < ((F.getD t []).getD e []).length ∧ (crefEntry F t e g).det ≤ 0) →
        StressEval.first_piola F S = .error "non-positive detF") := by
  refine ⟨?_, mapStore_length F _, ?_, ?_, ?_⟩
  · intro hpos
    apply tripleRange_ok
    intro t e g ht he hg
    show (if (crefEntry F t e g).det ≤ 0 then Except.error "non-positive detF"
      else .ok (((crefEntry S t e g).mul (crefEntry F t e g).inv.transpose).smul
        (crefEntry F t e g).det)) = _
    rw [if_neg (not_le.mpr (hpos t e g ht he hg))]
  · intro t ht
    exact ⟨mapStore_getD_len F _ t ht, fun e he => mapStore_getD2_len F _ t e ht he⟩
  · intro t e g ht he hg
    exact crefEntry_mapStore F _ t e g ht he hg
  · rintro ⟨t0, ht0, e0, he0, g0, hg0, hbad⟩
    have hnok : ∀ w, StressEval.first_piola F S ≠ .ok w := by
      intro w hw
      obtain ⟨w1, hw1⟩ := mapExcept_ok_mem _ _ w hw t0 (List.mem_range.mpr ht0)
      obtain ⟨w2, hw2⟩ := mapExcept_ok_mem _ _ w1 hw1 e0 (List.mem_range.mpr he0)
      obtain ⟨w3, hw3⟩ := mapExcept_ok_mem _ _ w2 hw2 g0 (List.mem_range.mpr hg0)
      have hw3b : (if (crefEntry F t0 e0 g0).det ≤ 0
          then Except.error (ε := String) "non-positive detF"
          else Except.ok (((crefEntry S t0 e0 g0).mul
            (crefEntry F t0 e0 g0).inv.transpose).smul (crefEntry F t0 e0 g0).det))
          = .ok w3 := hw3
      rw [if_pos hbad] at hw3b
      cases hw3b
    obtain ⟨err, herr⟩ := except_error_of_not_ok hnok
    obtain ⟨t1, _, ht1⟩ := mapExcept_error_mem _ _ err herr
    obtain ⟨e1, _, he1⟩ := mapExcept_error_mem _ _ err ht1
    obtain ⟨g1, _, hg1⟩ := mapExcept_error_mem _ _ err he1
    have hg1b : (if (crefEntry F t1 e1 g1).det ≤ 0
        then Except.error (ε := String) "non-positive detF"
        else Except.ok (((crefEntry S t1 e1 g1).mul
          (crefEntry F t1 e1 g1).inv.transpose).smul (crefEntry F t1 e1 g1).det))
        = .error err := hg1
    have hmsg : err = "non-positive detF" := by
      by_cases hd : (crefEntry F t1 e1 g1).det ≤ 0
      · rw [if_pos hd] at hg1b
        injection hg1b with h2
        exact h2.symm
      · rw [if_neg hd] at hg1b
        cases hg1b
    rw [hmsg] at herr
    exact herr

theorem first_piola_jsigmaFinvT_witness :
    StressEval.first_piola pOneFrame pOneFrame = .ok (piolaSpec pOneFrame pOneFrame) :=
  (first_piola_jsigmaFinvT pOneFrame pOneFrame).1 (by
    intro t e g ht he hg
    have ht0 : t = 0 := by
      simp [pOneFrame] at ht
      omega
    subst ht0
    have he0 : e = 0 := by
      simp [pOneFrame] at he
      omega
    subst he0
    have hg0 : g = 0 := by
      simp [pOneFrame] at hg
      omega
    subst hg0
    norm_num [crefEntry, pOneFrame, Mat3.det, Mat3.id])

/-- C9: through `StressEval::cauchy`, a constitutive collaborator identified
as uncoupled yields at every integration point the total Cauchy stress
`dev − (dev.zz) · I` where `dev = DevStress(F)`, while a non-uncoupled
material yields its full Cauchy stress unchanged. -/
theorem cauchy_uncoupled_policy (F : Defs) (dev stress : Mat3 → Mat3s) :
    StressEval.cauchy F
        (FEBioMaterialProvider.evalCauchy ⟨some (.uncoupled dev), fun _ _ => true⟩)
      = .ok (mapStore F (fun t e g =>
          ((dev (crefEntry F t e g)).subDiag (dev (crefEntry F t e g)).zz).toMat3))
    ∧ StressEval.cauchy F
        (FEBioMaterialProvider.evalCauchy ⟨some (.standard stress), fun _ _ => true⟩)
      = .ok (mapStore F (fun t e g => (stress (crefEntry F t e g)).toMat3))
    ∧ (∀ t e g, t < F.length → e < (F.getD t []).length →
        g < ((F.getD t []).getD e []).length →
        crefEntry (mapStore F (fun t e g =>
            ((dev (crefEntry F t e g)).subDiag (dev (crefEntry F t e g)).zz).toMat3)) t e g
          = ((dev (crefEntry F t e g)).subDiag (dev (crefEntry F t e g)).zz).toMat3) := by
  refine ⟨?_, ?_, ?_⟩
  · apply tripleRange_ok
    intro t e g _ _ _
    rfl
  · apply tripleRange_ok
    intro t e g _ _ _
    rfl
  · intro t e g ht he hg
    exact crefEntry_mapStore F _ t e g ht he hg

theorem cauchy_uncoupled_policy_witness :
    StressEval.cauchy pOneFrame
        (FEBioMaterialProvider.evalCauchy
          ⟨some (.uncoupled (fun _ => ⟨5, 6, 7, 1, 2, 3⟩)), fun _ _ => true⟩)
      = .ok (mapStore pOneFrame (fun t e g =>
          (((fun _ => (⟨5, 6, 7, 1, 2, 3⟩ : Mat3s)) (crefEntry pOneFrame t e g)).subDiag
            ((fun _ => (⟨5, 6, 7, 1, 2, 3⟩ : Mat3s)) (crefEntry pOneFrame t e g)).zz).toMat3)) :=
  (cauchy_uncoupled_policy pOneFrame (fun _ => ⟨5, 6, 7, 1, 2, 3⟩) (fun _ => Mat3s.zero)).1

/-- C6: with the determinant guard set (as it always is: both reconstruction
calls in `prepare_vfm_problem` pass `checkDet = true`), measured and virtual
kinematic reconstruction succeed exactly when det F > 0 at every integration
point, and fail with the identifying message "non-positive det(F)" as soon as
det F ≤ 0 at some integration point. -/
theorem kinematics_det_guard (q : MeshQuad) (sp : ShapeProvider)
    (U : List NodalField) (UV : List (List NodalField)) (pd : Bool) :
    ((∀ ut ∈ U, ∀ e, e < q.gpPerElem.length → ∀ g, g < q.gpPerElem.getD e 0 →
        0 < (procF sp pd ut e g).det) →
      Kinematics.compute_measured q sp U pd true = .ok (measuredSpec q sp U pd))
    ∧ ((∃ ut ∈ U, ∃ e, e < q.gpPerElem.length ∧ ∃ g, g < q.gpPerElem.getD e 0 ∧
        (procF sp pd ut e g).det ≤ 0) →
      Kinematics.compute_measured q sp U pd true = .error "non-positive det(F)")
    ∧ ((∀ ts ∈ UV, ∀ ut ∈ ts, ∀ e, e < q.gpPerElem.length → ∀ g, g < q.gpPerElem.getD e 0 →
        0 < (F_at e g sp ut).det) →
      Kinematics.compute_virtuals q sp UV true = .ok (virtualSpec q sp UV))
    ∧ ((∃ ts ∈ UV, ∃ ut ∈ ts, ∃ e, e < q.gpPerElem.length ∧ ∃ g, g < q.gpPerElem.getD e 0 ∧
        (F_at e g sp ut).det ≤ 0) →
      Kinematics.compute_virtuals q sp UV true = .error "non-positive det(F)") := by
  refine ⟨?_, ?_, ?_, ?_⟩
  · intro hpos
    unfold Kinematics.compute_measured measuredSpec
    apply mapExcept_eq_map
    intro ut hut
    apply mapExcept_eq_map
    intro e hem
    apply mapExcept_eq_map
    intro g hgm
    show defgradChecked true (procF sp pd ut e g) = .ok (procF sp pd ut e g)
    exact defgradChecked_pos true _
      (hpos ut hut e (List.mem_range.mp hem) g (List.mem_range.mp hgm))
  · rintro ⟨ut0, hut0, e0, he0, g0, hg0, hbad⟩
    have hnok : ∀ w, Kinematics.compute_measured q sp U pd true ≠ .ok w := by
      intro w hw
      obtain ⟨w1, hw1⟩ := mapExcept_ok_mem _ _ w hw ut0 hut0
      obtain ⟨w2, hw2⟩ := mapExcept_ok_mem _ _ w1 hw1 e0 (List.mem_range.mpr he0)
      obtain ⟨w3, hw3⟩ := mapExcept_ok_mem _ _ w2 hw2 g0 (List.mem_range.mpr hg0)
      have hw3b : defgradChecked true (procF sp pd ut0 e0 g0) = .ok w3 := hw3
      rw [defgradChecked_neg _ hbad] at hw3b
      cases hw3b
    obtain ⟨err, herr⟩ := except_error_of_not_ok hnok
    obtain ⟨ut1, _, hu1⟩ := mapExcept_error_mem _ _ err herr
    obtain ⟨e1, _, he1⟩ := mapExcept_error_mem _ _ err hu1
    obtain ⟨g1, _, hg1⟩ := mapExcept_error_mem _ _ err he1
    have hg1b : defgradChecked true (procF sp pd ut1 e1 g1) = .error err := hg1
    rw [defgradChecked_error_msg true _ err hg1b] at herr
    exact herr
  · intro hpos
    unfold Kinematics.compute_virtuals virtualSpec
    apply mapExcept_eq_map
    intro ts hts
    apply mapExcept_eq_map
    intro ut hut
    apply mapExcept_eq_map
    intro e hem
    apply mapExcept_eq_map
    intro g hgm
    show defgradChecked true (F_at e g sp ut) = .ok (F_at e g sp ut)
    exact defgradChecked_pos true _
      (hpos ts hts ut hut e (List.mem_range.mp hem) g (List.mem_range.mp hgm))
  · rintro ⟨ts0, hts0, ut0, hut0, e0, he0, g0, hg0, hbad⟩
    have hnok : ∀ w, Kinematics.compute_virtuals q sp UV true ≠ .ok w := by
      intro w hw
      obtain ⟨w1, hw1⟩ := mapExcept_ok_mem _ _ w hw ts0 hts0
      obtain ⟨w2, hw2⟩ := mapExcept_ok_mem _ _ w1 hw1 ut0 hut0
      obtain ⟨w3, hw3⟩ := mapExcept_ok_mem _ _ w2 hw2 e0 (List.mem_range.mpr he0)
      obtain ⟨w4, hw4⟩ := mapExcept_ok_mem _ _ w3 hw3 g0 (List.mem_range.mpr hg0)
      have hw4b : defgradChecked true (F_at e0 g0 sp ut0) = .ok w4 := hw4
      rw [defgradChecked_neg _ hbad] at hw4b
      cases hw4b
    obtain ⟨err, herr⟩ := except_error_of_not_ok hnok
    obtain ⟨ts1, _, hts1⟩ := mapExcept_error_mem _ _ err herr
    obtain ⟨ut1, _, hut1⟩ := mapExcept_error_mem _ _ err hts1
    obtain ⟨e1, _, he1⟩ := mapExcept_error_mem _ _ err hut1
    obtain ⟨g1, _, hg1⟩ := mapExcept_error_mem _ _ err he1
    have hg1b : defgradChecked true (F_at e1 g1 sp ut1) = .error err := hg1
    rw [defgradChecked_error_msg true _ err hg1b] at herr
    exact herr

theorem kinematics_det_guard_witness :
    Kinematics.compute_measured quadOne spOneNode [[⟨1, 0, 0⟩]] false true
      = .ok (measuredSpec quadOne spOneNode [[⟨1, 0, 0⟩]] false) :=
  (kinematics_det_guard quadOne spOneNode [[⟨1, 0, 0⟩]] [] false).1 (by
    intro ut hut e he g hg
    rw [List.mem_singleton] at hut
    subst hut
    have he0 : e = 0 := by
      simp [quadOne] at he
      omega
    subst he0
    have hg0 : g = 0 := by
      simp [quadOne] at hg
      omega
    subst hg0
    norm_num [procF, F_at, spOneNode, NodalField.getNode, Mat3.outer, Mat3.add,
      Mat3.id, Mat3.det, List.range_succ])

/-!  Internal-work dispatch lemmas. -/

theorem iwCheckVF_of_legal (T n : ℕ) (hT : T ≠ 0) (h : n = 1 ∨ T ≤ n) :
    iwCheckVF T n = .ok (decide (n < T)) := by
  unfold iwCheckVF
  rcases h with h1 | h2
  · subst h1
    by_cases hlt : 1 < T
    · simp [hlt]
    · have hT1 : T = 1 := by omega
      subst hT1
      simp
  · have hn0 : n ≠ 0 := by omega
    have hnlt : ¬ n < T := by omega
    simp [hn0, hnlt]

theorem iwCheckVF_ok_legal (T n : ℕ) (s : Bool) (h : iwCheckVF T n = .ok s) :
    n = 1 ∨ T ≤ n := by
  unfold iwCheckVF at h
  by_cases h0 : n = 0
  · rw [if_pos h0] at h
    cases h
  · rw [if_neg h0] at h
    by_cases hlt : n < T
    · rw [if_pos hlt] at h
      by_cases h1 : n = 1
      · exact Or.inl h1
      · rw [if_neg h1] at h
        cases h
    · exact Or.inr (by omega)

theorem iwRow_eq_spec (q : MeshQuad) (P : Defs) (vdef : VDefs) (toVG : Mat3 → Mat3)
    (T v : ℕ) (hT : T ≠ 0) (h : vdef.nTimesOf v = 1 ∨ T ≤ vdef.nTimesOf v) :
    iwRow q P vdef toVG T v (decide (vdef.nTimesOf v < T))
      = (List.range T).map (fun t =>
          iwTime q P vdef toVG v (if vdef.nTimesOf v = 1 then 0 else t) t) := by
  unfold iwRow
  rcases h with h1 | h2
  · by_cases hlt : vdef.nTimesOf v < T
    · have hlt1 : 1 < T := by omega
      simp [hlt, h1, hlt1]
    · have hT1 : T = 1 := by omega
      subst hT1
      simp [hlt, h1, List.range_succ]
  · have hlt : ¬ vdef.nTimesOf v < T := by omega
    by_cases h1 : vdef.nTimesOf v = 1
    · have hT1 : T = 1 := by omega
      subst hT1
      simp [hlt, h1, List.range_succ]
    · simp [hlt, h1]

theorem internalWorkRows_ok_of_legal (q : MeshQuad) (P : Defs) (vdef : VDefs)
    (toVG : Mat3 → Mat3) (T : ℕ) (hT : T ≠ 0) :
    ∀ l : List ℕ, (∀ v ∈ l, legalVF vdef T v) →
      internalWorkRows q P vdef toVG T l
        = .ok ((l.map (fun v => (List.range T).map (fun t =>
            iwTime q P vdef toVG v (if vdef.nTimesOf v = 1 then 0 else t) t))).flatten) := by
  intro l
  induction l with
  | nil => intro _; rfl
  | cons v vs ih =>
    intro h
    have hv := h v (List.mem_cons_self v vs)
    have hrest := ih (fun w hw => h w (List.mem_cons_of_mem v hw))
    show (match iwCheckVF T (vdef.nTimesOf v) with
      | .error e => Except.error e
      | .ok single =>
        match internalWorkRows q P vdef toVG T vs with
        | .error e => Except.error e
        | .ok rest => Except.ok (iwRow q P vdef toVG T v single ++ rest)) = _
    rw [iwCheckVF_of_legal T _ hT hv, hrest]
    show Except.ok (iwRow q P vdef toVG T v (decide (vdef.nTimesOf v < T)) ++ _) = _
    rw [iwRow_eq_spec q P vdef toVG T v hT hv]
    rfl

theorem internalWorkRows_ok_legal (q : MeshQuad) (P : Defs) (vdef : VDefs)
    (toVG : Mat3 → Mat3) (T : ℕ) :
    ∀ (l : List ℕ) (W : List ℚ), internalWorkRows q P vdef toVG T l = .ok W →
      ∀ v ∈ l, legalVF vdef T v := by
  intro l
  induction l with
  | nil => intro W _ v hv; cases hv
  | cons v2 vs ih =>
    intro W hW w hw
    have hWb : (match iwCheckVF T (vdef.nTimesOf v2) with
      | .error e => Except.error e
      | .ok single =>
        match internalWorkRows q P vdef toVG T vs with
        | .error e => Except.error e
        | .ok rest => Except.ok (iwRow q P vdef toVG T v2 single ++ rest)) = .ok W := hW
    cases hc : iwCheckVF T (vdef.nTimesOf v2) with
    | error e =>
      rw [hc] at hWb
      cases hWb
    | ok s =>
      rw [hc] at hWb
      cases hr : internalWorkRows q P vdef toVG T vs with
      | error e =>
        rw [hr] at hWb
        cases hWb
      | ok rest =>
        rcases List.mem_cons.mp hw with h1 | h2
        · subst h1
          exact iwCheckVF_ok_legal T _ s hc
        · exact ih rest hr w h2

/-- C2 (amended): with a non-empty stress store of T frames and a non-empty
virtual-field set, the internal-work assembly succeeds exactly when every
virtual field carries one frame or at least T frames; in that case
W[v·T + t] is computed against the virtual deformation at frame 0 when field
v carries exactly one frame and at frame t otherwise, and a frame count of 0
or strictly between 1 and T makes the assembly fail. -/
theorem internalWork_frame_dispatch (q : MeshQuad) (vdef : VDefs) (P : Defs)
    (toVG : Mat3 → Mat3) (hVF : vdef.length ≠ 0) (hT : P.length ≠ 0) :
    ((∀ v, v < vdef.length → legalVF vdef P.length v) →
      internalWorkCore q vdef P toVG = .ok (iwSpec q vdef P toVG))
    ∧ (∀ W, internalWorkCore q vdef P toVG = .ok W →
        ∀ v, v < vdef.length → legalVF vdef P.length v)
    ∧ (∀ v t, v < vdef.length → t < P.length →
        (iwSpec q vdef P toVG).getD (v * P.length + t) 0
          = iwTime q P vdef toVG v (if vdef.nTimesOf v = 1 then 0 else t) t) := by
  have hcore : internalWorkCore q vdef P toVG
      = internalWorkRows q P vdef toVG P.length (List.range vdef.length) := by
    show (if vdef.length = 0 then Except.ok []
      else if P.length = 0 then Except.ok []
      else internalWorkRows q P vdef toVG P.length (List.range vdef.length)) = _
    rw [if_neg hVF, if_neg hT]
  refine ⟨?_, ?_, ?_⟩
  · intro hleg
    rw [hcore]
    exact internalWorkRows_ok_of_legal q P vdef toVG P.length hT (List.range vdef.length)
      (fun v hv => hleg v (List.mem_range.mp hv))
  · intro W hW v hv
    rw [hcore] at hW
    exact internalWorkRows_ok_legal q P vdef toVG P.length (List.range vdef.length) W hW
      v (List.mem_range.mpr hv)
  · intro v t hv ht
    unfold iwSpec
    rw [flatten_getD_uniform P.length _ ?_ v t (by simpa using hv) ht]
    · rw [getD_map_of_lt _ _ 0 _ v (by simpa using hv), getD_range_self _ _ hv,
        getD_map_of_lt _ _ 0 _ t (by simpa using ht), getD_range_self _ _ ht]
    · intro r hr
      obtain ⟨v2, _, rfl⟩ := List.mem_map.mp hr
      simp

theorem internalWork_frame_dispatch_witness :
    internalWorkCore quadOne vdefOneFrame pTwoFrames virtGrad
      = .ok (iwSpec quadOne vdefOneFrame pTwoFrames virtGrad) :=
  (internalWork_frame_dispatch quadOne vdefOneFrame pTwoFrames virtGrad
      (by decide) (by decide)).1
    (by
      intro v hv
      have hv0 : v = 0 := by
        simp [vdefOneFrame] at hv
        omega
      subst hv0
      exact Or.inl rfl)

/-!  Parameter-applier lemmas. -/

theorem applyGo_all_valid (ptrs : List Bool) :
    ∀ (rest : List ℚ) (i : ℕ) (st : ApplyState),
      i + rest.length ≤ st.fe.length → i + rest.length ≤ st.params.length →
      (∀ m, m < rest.length → ptrs.getD (i + m) false = true) →
      (applyGo ptrs st i rest).1 = none
      ∧ (applyGo ptrs st i rest).2.fe.length = st.fe.length
      ∧ (applyGo ptrs st i rest).2.params.length = st.params.length
      ∧ (∀ k, k < i →
          (applyGo ptrs st i rest).2.fe.getD k 0 = st.fe.getD k 0
          ∧ (applyGo ptrs st i rest).2.params.getD k default = st.params.getD k default)
      ∧ (∀ m, m < rest.length →
          (applyGo ptrs st i rest).2.fe.getD (i + m) 0 = rest.getD m 0
          ∧ ((applyGo ptrs st i rest).2.params.getD (i + m) default).value = rest.getD m 0
          ∧ ((applyGo ptrs st i rest).2.params.getD (i + m) default).spec
              = (st.params.getD (i + m) default).spec)
      ∧ (∀ k, i + rest.length ≤ k →
          (applyGo ptrs st i rest).2.fe.getD k 0 = st.fe.getD k 0
          ∧ (applyGo ptrs st i rest).2.params.getD k default = st.params.getD k default) := by
  intro rest
  induction rest with
  | nil =>
    intro i st _ _ _
    exact ⟨rfl, rfl, rfl, fun k _ => ⟨rfl, rfl⟩, fun m hm => absurd hm (by simp),
      fun k _ => ⟨rfl, rfl⟩⟩
  | cons x xs ih =>
    intro i st hlen1 hlen2 hvalid
    have hlc : (x :: xs).length = xs.length + 1 := rfl
    have hv0 : ptrs.getD i false = true := by
      have h := hvalid 0 (by omega)
      simpa using h
    have hi_fe : i < st.fe.length := by omega
    have hi_par : i < st.params.length := by omega
    have hstep : applyGo ptrs st i (x :: xs)
        = applyGo ptrs (commitParam st i x) (i + 1) xs := by
      show (if ptrs.getD i false then applyGo ptrs (commitParam st i x) (i + 1) xs
        else (some ("null FE ptr for " ++ (st.params.getD i default).spec.name), st)) = _
      rw [hv0]
      simp
    have hfe_len : (commitParam st i x).fe.length = st.fe.length := by
      simp [commitParam, List.length_set]
    have hp_len : (commitParam st i x).params.length = st.params.length := by
      simp [commitParam, List.length_set]
    have ihspec := ih (i + 1) (commitParam st i x)
      (by rw [hfe_len]; omega) (by rw [hp_len]; omega)
      (fun m hm => by
        have h := hvalid (m + 1) (by omega)
        have harith : i + (m + 1) = i + 1 + m := by omega
        rw [harith] at h
        exact h)
    obtain ⟨ih1, ih2, ih3, ihpre, ihmain, ihsuf⟩ := ihspec
    rw [hstep]
    have hc_fe_at : (commitParam st i x).fe.getD i 0 = x := by
      show (st.fe.set i x).getD i 0 = x
      exact getD_set_self st.fe i x 0 hi_fe
    have hc_par_at : (commitParam st i x).params.getD i default
        = { st.params.getD i default with value := x } := by
      show (st.params.set i _).getD i default = _
      exact getD_set_self st.params i _ default hi_par
    have hc_fe_other : ∀ k, k ≠ i → (commitParam st i x).fe.getD k 0 = st.fe.getD k 0 := by
      intro k hk
      show (st.fe.set i x).getD k 0 = st.fe.getD k 0
      exact getD_set_other st.fe i k x 0 (fun h => hk h.symm)
    have hc_par_other : ∀ k, k ≠ i →
        (commitParam st i x).params.getD k default = st.params.getD k default := by
      intro k hk
      show (st.params.set i _).getD k default = st.params.getD k default
      exact getD_set_other st.params i k _ default (fun h => hk h.symm)
    refine ⟨ih1, by rw [ih2, hfe_len], by rw [ih3, hp_len], ?_, ?_, ?_⟩
    · intro k hk
      have hp := ihpre k (by omega)
      exact ⟨by rw [hp.1, hc_fe_other k (by omega)],
        by rw [hp.2, hc_par_other k (by omega)]⟩
    · intro m hm
      cases m with
      | zero =>
        have hp := ihpre i (by omega)
        have hz : i + 0 = i := by omega
        rw [hz]
        refine ⟨?_, ?_, ?_⟩
        · rw [hp.1, hc_fe_at]
          rfl
        · rw [hp.2, hc_par_at]
          rfl
        · rw [hp.2, hc_par_at]
      | succ m2 =>
        have hm2 : m2 < xs.length := by omega
        have harith : i + (m2 + 1) = i + 1 + m2 := by omega
        have hmain := ihmain m2 hm2
        rw [harith]
        refine ⟨hmain.1, hmain.2.1, ?_⟩
        rw [hmain.2.2, hc_par_other (i + 1 + m2) (by omega)]
    · intro k hk
      have hs := ihsuf k (by omega)
      exact ⟨by rw [hs.1, hc_fe_other k (by omega)],
        by rw [hs.2, hc_par_other k (by omega)]⟩

theorem applyGo_stops (ptrs : List Bool) :
    ∀ (rest : List ℚ) (i : ℕ) (st : ApplyState) (j : ℕ),
      j < rest.length →
      i + rest.length ≤ st.fe.length → i + rest.length ≤ st.params.length →
      (∀ m, m < j → ptrs.getD (i + m) false = true) →
      ptrs.getD (i + j) false = false →
      (applyGo ptrs st i rest).1
        = some ("null FE ptr for " ++ (st.params.getD (i + j) default).spec.name)
      ∧ (∀ k, k < i →
          (applyGo ptrs st i rest).2.fe.getD k 0 = st.fe.getD k 0
          ∧ (applyGo ptrs st i rest).2.params.getD k default = st.params.getD k default)
      ∧ (∀ m, m < j →
          (applyGo ptrs st i rest).2.fe.getD (i + m) 0 = rest.getD m 0
          ∧ ((applyGo ptrs st i rest).2.params.getD (i + m) default).value = rest.getD m 0
          ∧ ((applyGo ptrs st i rest).2.params.getD (i + m) default).spec
              = (st.params.getD (i + m) default).spec)
      ∧ (∀ k, i + j ≤ k →
          (applyGo ptrs st i rest).2.fe.getD k 0 = st.fe.getD k 0
          ∧ (applyGo ptrs st i rest).2.params.getD k default = st.params.getD k default) := by
  intro rest
  induction rest with
  | nil =>
    intro i st j hj _ _ _ _
    exact absurd hj (by simp)
  | cons x xs ih =>
    intro i st j hj hlen1 hlen2 hbefore hstop
    have hlc : (x :: xs).length = xs.length + 1 := rfl
    cases j with
    | zero =>
      have hz : i + 0 = i := by omega
      rw [hz] at hstop
      have hstep : applyGo ptrs st i (x :: xs)
          = (some ("null FE ptr for " ++ (st.params.getD i default).spec.name), st) := by
        show (if ptrs.getD i false then applyGo ptrs (commitParam st i x) (i + 1) xs
          else (some ("null FE ptr for " ++ (st.params.getD i default).spec.name), st)) = _
        rw [hstop]
        simp
      rw [hstep, hz]
      exact ⟨rfl, fun k _ => ⟨rfl, rfl⟩, fun m hm => absurd hm (by omega),
        fun k _ => ⟨rfl, rfl⟩⟩
    | succ j2 =>
      have hv0 : ptrs.getD i false = true := by
        have h := hbefore 0 (by omega)
        simpa using h
      have hi_fe : i < st.fe.length := by omega
      have hi_par : i < st.params.length := by omega
      have hstep : applyGo ptrs st i (x :: xs)
          = applyGo ptrs (commitParam st i x) (i + 1) xs := by
        show (if ptrs.getD i false then applyGo ptrs (commitParam st i x) (i + 1) xs
          else (some ("null FE ptr for " ++ (st.params.getD i default).spec.name), st)) = _
        rw [hv0]
        simp
      have hfe_len : (commitParam st i x).fe.length = st.fe.length := by
        simp [commitParam, List.length_set]
      have hp_len : (commitParam st i x).params.length = st.params.length := by
        simp [commitParam, List.length_set]
      have hc_fe_at : (commitParam st i x).fe.getD i 0 = x := by
        show (st.fe.set i x).getD i 0 = x
        exact getD_set_self st.fe i x 0 hi_fe
      have hc_par_at : (commitParam st i x).params.getD i default
          = { st.params.getD i default with value := x } := by
        show (st.params.set i _).getD i default = _
        exact getD_set_self st.params i _ default hi_par
      have hc_fe_other : ∀ k, k ≠ i →
          (commitParam st i x).fe.getD k 0 = st.fe.getD k 0 := by
        intro k hk
        show (st.fe.set i x).getD k 0 = st.fe.getD k 0
        exact getD_set_other st.fe i k x 0 (fun h => hk h.symm)
      have hc_par_other : ∀ k, k ≠ i →
          (commitParam st i x).params.getD k default = st.params.getD k default := by
        intro k hk
        show (st.params.set i _).getD k default = st.params.getD k default
        exact getD_set_other st.params i k _ default (fun h => hk h.symm)
      have ihspec := ih (i + 1) (commitParam st i x) j2 (by omega)
        (by rw [hfe_len]; omega) (by rw [hp_len]; omega)
        (fun m hm => by
          have h := hbefore (m + 1) (by omega)
          have harith : i + (m + 1) = i + 1 + m := by omega
          rw [harith] at h
          exact h)
        (by
          have harith : i + (j2 + 1) = i + 1 + j2 := by omega
          rw [harith] at hstop
          exact hstop)
      obtain ⟨ih1, ihpre, ihmain, ihsuf⟩ := ihspec
      rw [hstep]
      have harithj : i + (j2 + 1) = i + 1 + j2 := by omega
      refine ⟨?_, ?_, ?_, ?_⟩
      · rw [harithj, ih1, hc_par_other (i + 1 + j2) (by omega)]
      · intro k hk
        have hp := ihpre k (by omega)
        exact ⟨by rw [hp.1, hc_fe_other k (by omega)],
          by rw [hp.2, hc_par_other k (by omega)]⟩
      · intro m hm
        cases m with
        | zero =>
          have hp := ihpre i (by omega)
          have hz : i + 0 = i := by omega
          rw [hz]
          refine ⟨?_, ?_, ?_⟩
          · rw [hp.1, hc_fe_at]
            rfl
          · rw [hp.2, hc_par_at]
            rfl
          · rw [hp.2, hc_par_at]
        | succ m2 =>
          have hm2 : m2 < j2 := by omega
          have harith : i + (m2 + 1) = i + 1 + m2 := by omega
          have hmain := ihmain m2 hm2
          rw [harith]
          refine ⟨hmain.1, hmain.2.1, ?_⟩
          rw [hmain.2.2, hc_par_other (i + 1 + m2) (by omega)]
      · intro k hk
        have hs := ihsuf k (by omega)
        exact ⟨by rw [hs.1, hc_fe_other k (by omega)],
          by rw [hs.2, hc_par_other k (by omega)]⟩

/-- C4 (amended): `apply(θ)` fails when |θ| differs from the number of
registered parameters (leaving the state untouched) and when some cached
parameter location is missing; in the missing-location case the failure is
reported only after the parameters before the first missing location have
been committed (their backing store and record value equal θ[i]), while the
parameters from the first missing location on are untouched.  On success the
constitutive backing store and the record value of every parameter equal θ[i]
exactly. -/
theorem apply_characterization (ptrs : List Bool) (p : List ℚ) (st : ApplyState)
    (hfe : st.fe.length = st.params.length) :
    (p.length ≠ st.params.length →
        FEBioParameterApplier.apply ptrs p st = (some "param size mismatch", st))
    ∧ (p.length = st.params.length →
        (∀ i, i < p.length → ptrs.getD i false = true) →
        (FEBioParameterApplier.apply ptrs p st).1 = none
        ∧ ∀ i, i < p.length →
            (FEBioParameterApplier.apply ptrs p st).2.fe.getD i 0 = p.getD i 0
            ∧ ((FEBioParameterApplier.apply ptrs p st).2.params.getD i default).value
                = p.getD i 0)
    ∧ (∀ j, p.length = st.params.length → j < p.length →
        (∀ i, i < j → ptrs.getD i false = true) → ptrs.getD j false = false →
        (FEBioParameterApplier.apply ptrs p st).1
          = some ("null FE ptr for " ++ (st.params.getD j default).spec.name)
        ∧ (∀ i, i < j →
            (FEBioParameterApplier.apply ptrs p st).2.fe.getD i 0 = p.getD i 0
            ∧ ((FEBioParameterApplier.apply ptrs p st).2.params.getD i default).value
                = p.getD i 0)
        ∧ (∀ i, j ≤ i →
            (FEBioParameterApplier.apply ptrs p st).2.fe.getD i 0 = st.fe.getD i 0
            ∧ (FEBioParameterApplier.apply ptrs p st).2.params.getD i default
                = st.params.getD i default)) := by
  refine ⟨?_, ?_, ?_⟩
  · intro hne
    show (if p.length ≠ st.params.length then (some "param size mismatch", st)
      else applyGo ptrs st 0 p) = _
    rw [if_pos hne]
  · intro hsize hall
    have happ : FEBioParameterApplier.apply ptrs p st = applyGo ptrs st 0 p := by
      show (if p.length ≠ st.params.length then (some "param size mismatch", st)
        else applyGo ptrs st 0 p) = _
      rw [if_neg (fun hc => hc hsize)]
    obtain ⟨h1, _, _, _, hmain, _⟩ := applyGo_all_valid ptrs p 0 st
      (by omega) (by omega) (fun m hm => by simpa using hall m hm)
    rw [happ]
    refine ⟨h1, ?_⟩
    intro i hi
    have hm := hmain i hi
    simp only [Nat.zero_add] at hm
    exact ⟨hm.1, hm.2.1⟩
  · intro j hsize hj hbef hstop
    have happ : FEBioParameterApplier.apply ptrs p st = applyGo ptrs st 0 p := by
      show (if p.length ≠ st.params.length then (some "param size mismatch", st)
        else applyGo ptrs st 0 p) = _
      rw [if_neg (fun hc => hc hsize)]
    obtain ⟨h1, _, hmain, hsuf⟩ := applyGo_stops ptrs p 0 st j hj
      (by omega) (by omega) (fun m hm => by simpa using hbef m hm) (by simpa using hstop)
    rw [happ]
    refine ⟨by simpa using h1, ?_, ?_⟩
    · intro i hi
      have hm := hmain i hi
      simp only [Nat.zero_add] at hm
      exact ⟨hm.1, hm.2.1⟩
    · intro i hi
      exact hsuf i (by omega)

theorem apply_characterization_witness :
    (FEBioParameterApplier.apply [true] [3] stOneParam).1 = none
    ∧ (FEBioParameterApplier.apply [true] [3] stOneParam).2.fe.getD 0 0 = 3
    ∧ ((FEBioParameterApplier.apply [true] [3] stOneParam).2.params.getD 0 default).value
        = 3 := by
  have h := (apply_characterization [true] [3] stOneParam rfl).2.1 rfl
    (fun i hi => by
      have hi0 : i = 0 := by
        simp at hi
        exact hi
      subst hi0
      rfl)
  exact ⟨h.1, (h.2 0 (by simp)).1, (h.2 0 (by simp)).2⟩
